import Mathlib

/-!
Shallow embedding of the comic-strip scene editor core (SriVineel/OOPS-Project):
the undo/redo command layer (Command.cpp / Command.h), the speech-bubble
geometry kernel and word-wrap (SpeechBubble.cpp), and the brush-stroke
sampling algorithm (BrushStroke.cpp).

Modelling conventions:
- C++ `float` arithmetic is modelled exactly over `ℚ`; rounding of IEEE
  floats is abstracted away.
- The external math collaborators `std::cos`, `std::sin`, `std::sqrt` are
  abstract function parameters (`cosf`, `sinf`, `sqrtf`); theorems that need
  analytic facts about them take those facts as hypotheses.
- The SFML text measurer (`sf::Text::getLocalBounds().size.x` as a function
  of the character size and the string, for the bubble's font) and the
  `AssetManager` texture lookup are abstract collaborator parameters.
- A `std::vector<std::unique_ptr<T>>` scene collection is `List (Option T)`:
  `none` models a null `unique_ptr` (as produced by `std::move`).
- Rendering-only state (text origin/position set by `centerText`, sprite
  positions, fill/outline colours) does not feed back into any other field
  and is omitted from the state records.
-/

namespace Comic

/-! ## Geometry kernel (SpeechBubble.cpp 216-375) -/

/-- The constant `PI` from the anonymous namespace of SpeechBubble.cpp. -/
def piF : ℚ := 3.14159265358979323846

/-- One 90-degree corner arc of `rebuildSpeechRound` (`putArc` lambda,
SpeechBubble.cpp 251-265): 6 points on the arc of radius `radius` around
centre `c`, starting at angle `startAng`. -/
def putArc (cosf sinf : ℚ → ℚ) (radius : ℚ) (c : ℚ × ℚ) (startAng : ℚ) :
    List (ℚ × ℚ) :=
  (List.range 6).map fun i =>
    let t : ℚ := (i : ℚ) / 5
    let ang := startAng + t * (piF / 2)
    (c.1 + radius * cosf ang, c.2 + radius * sinf ang)

/-- `SpeechBubble::rebuildSpeechRound` (SpeechBubble.cpp 237-287): rounded
rectangle made of four 6-point corner arcs with three tail points spliced in
between the bottom-right and bottom-left arcs. -/
def rebuildSpeechRound (cosf sinf : ℚ → ℚ)
    (w h radius tailLen tailWidth : ℚ) : List (ℚ × ℚ) :=
  let tl : ℚ × ℚ := (radius, radius)
  let tr : ℚ × ℚ := (w - radius, radius)
  let br : ℚ × ℚ := (w - radius, h - radius)
  let bl : ℚ × ℚ := (radius, h - radius)
  let baseX := radius + 18
  let baseY := h
  let halfW := tailWidth * 0.5
  putArc cosf sinf radius tl piF ++
    putArc cosf sinf radius tr (-(piF / 2)) ++
    putArc cosf sinf radius br 0 ++
    [(baseX + halfW, baseY - 2),
     (baseX - 0.20 * tailWidth, baseY + tailLen),
     (baseX - halfW, baseY - 2)] ++
    putArc cosf sinf radius bl (piF / 2)

/-- `SpeechBubble::rebuildSpeechBox` (SpeechBubble.cpp 289-314): square-corner
rectangle with a three-point tail spliced before the bottom-left corner. -/
def rebuildSpeechBox (w h radius tailLen tailWidth : ℚ) : List (ℚ × ℚ) :=
  let baseX := w - radius - 18
  let baseY := h
  let halfW := tailWidth * 0.5
  [(radius, radius), (w - radius, radius), (w - radius, h - radius)] ++
    [(baseX + halfW, baseY - 2),
     (baseX + 0.20 * tailWidth, baseY + tailLen),
     (baseX - halfW, baseY - 2)] ++
    [(radius, h - radius)]

/-- `SpeechBubble::rebuildThought` (SpeechBubble.cpp 316-349): 10 blob
clusters of 8 points each, distributed on an ellipse inscribed in `(w,h)`. -/
def rebuildThought (cosf sinf : ℚ → ℚ) (w h : ℚ) : List (ℚ × ℚ) :=
  let r := min w h * 0.16
  let a := w * 0.5 - r * 0.9
  let b := h * 0.5 - r * 0.8
  let c : ℚ × ℚ := (w * 0.5, h * 0.5)
  (List.range 10).flatMap fun i =>
    let t : ℚ := (i : ℚ) / 10 * 2 * piF
    let jitter := 1 + 0.15 * sinf (t * 2)
    let center : ℚ × ℚ := (c.1 + a * cosf t, c.2 + b * sinf t)
    (List.range 8).map fun j =>
      let ang : ℚ := (j : ℚ) / 8 * 2 * piF
      (center.1 + r * jitter * cosf ang, center.2 + r * jitter * sinf ang)

/-- `SpeechBubble::rebuildShout` (SpeechBubble.cpp 351-375): 16-spike star
alternating outer and inner radius, 32 points. -/
def rebuildShout (cosf sinf : ℚ → ℚ) (w h : ℚ) : List (ℚ × ℚ) :=
  let rx := w * 0.48
  let ry := h * 0.42
  let rIn := min rx ry * 0.65
  let rOut := min rx ry
  let c : ℚ × ℚ := (w * 0.5, h * 0.5)
  (List.range 32).map fun i =>
    let t : ℚ := (i : ℚ) / 32 * 2 * piF
    let rad := if i % 2 = 0 then rOut else rIn
    (c.1 + rad * cosf t, c.2 + rad * sinf t)

/-- `SpeechBubble::rebuild` (SpeechBubble.cpp 216-235): dispatch on the
current style string. -/
def rebuildShape (cosf sinf : ℚ → ℚ) (style : String)
    (w h radius tailLen tailWidth : ℚ) : List (ℚ × ℚ) :=
  if style = "thought" then rebuildThought cosf sinf w h
  else if style = "shout" then rebuildShout cosf sinf w h
  else if style = "speech_rectangle" then
    rebuildSpeechBox w h radius tailLen tailWidth
  else rebuildSpeechRound cosf sinf w h radius tailLen tailWidth

/-! ## External collaborators -/

/-- External collaborators of SpeechBubble: `std::cos` / `std::sin`, the text
measurer (character size and string to pixel width, `m_text.getLocalBounds`),
and `AssetManager::getTexture` (asset key to optional texture size). -/
structure Env where
  cosf : ℚ → ℚ
  sinf : ℚ → ℚ
  measure : Int → String → ℚ
  assets : String → Option (ℕ × ℕ)

/-! ## SpeechBubble (SpeechBubble.h / SpeechBubble.cpp) -/

/-- State of a `SpeechBubble` (fields of SpeechBubble.h 148-156 plus the
inherited CanvasObject geometry). `displayed` is the string currently held by
`m_text`; `sprite` models `m_bubbleSprite` by its scale factors. -/
structure SpeechBubble where
  x : ℚ
  y : ℚ
  width : ℚ
  height : ℚ
  text : String
  fontSize : Int
  fontName : String
  style : String
  useImageBubble : Bool
  bubbleImagePath : String
  shape : List (ℚ × ℚ)
  sprite : Option (ℚ × ℚ)
  displayed : String

/-- One iteration of the character loop of `SpeechBubble::wrapText`
(SpeechBubble.cpp 62-120). The fold state is
`(wrappedText, currentWord, currentLine)`. -/
def wrapStep (measure : Int → String → ℚ) (fs : Int) (maxWidth : ℚ)
    (st : String × String × String) (c : Char) : String × String × String :=
  let wrapped := st.1
  let word := st.2.1
  let line := st.2.2
  if c = ' ' ∨ c = '\n' then
    let testLine := if line = "" then word else line ++ " " ++ word
    let flushed :=
      if maxWidth < measure fs testLine ∧ line ≠ "" then
        (wrapped ++ line ++ "\n", word)
      else (wrapped, testLine)
    if c = '\n' then (flushed.1 ++ flushed.2 ++ "\n", "", "")
    else (flushed.1, "", flushed.2)
  else
    let word := word.push c
    if maxWidth < measure fs word then
      if 1 < word.length then
        let lastChar := word.back
        let word := word.dropRight 1
        let wrapped :=
          (if line ≠ "" then wrapped ++ line ++ " " else wrapped) ++
            word ++ "\n"
        (wrapped, String.singleton lastChar, "")
      else (wrapped, word, line)
    else (wrapped, word, line)

/-- The trailing flush of `SpeechBubble::wrapText` (SpeechBubble.cpp 122-141):
handle the last word / last line after the character loop. -/
def wrapFinish (measure : Int → String → ℚ) (fs : Int) (maxWidth : ℚ)
    (st : String × String × String) : String :=
  let wrapped := st.1
  let word := st.2.1
  let line := st.2.2
  if word ≠ "" then
    let testLine := if line = "" then word else line ++ " " ++ word
    if maxWidth < measure fs testLine ∧ line ≠ "" then
      wrapped ++ line ++ "\n" ++ word
    else wrapped ++ testLine
  else if line ≠ "" then wrapped ++ line
  else wrapped

/-- The full greedy word-wrap of `SpeechBubble::wrapText`
(SpeechBubble.cpp 46-148) as a function of the measurer, the character size,
the raw text and the maximum line width in pixels. -/
def wrapAlg (measure : Int → String → ℚ) (fs : Int) (text : String)
    (maxWidth : ℚ) : String :=
  if text = "" then ""
  else
    wrapFinish measure fs maxWidth
      (text.toList.foldl (wrapStep measure fs maxWidth) ("", "", ""))

/-- `SpeechBubble::wrapText` as a state update: recompute `displayed` from
the current `text`, `fontSize` and `width` (maximum width is 80% of the
bubble width, SpeechBubble.cpp 56). -/
def SpeechBubble.wrapText (env : Env) (b : SpeechBubble) : SpeechBubble :=
  { b with displayed := wrapAlg env.measure b.fontSize b.text (b.width * 0.80) }

/-- `SpeechBubble::setSize` (SpeechBubble.cpp 150-178): update the geometry
(`CanvasObject::setSize`), rescale the sprite or rebuild the polygon, then
re-wrap the text. -/
def SpeechBubble.setSize (env : Env) (w h : ℚ) (b : SpeechBubble) :
    SpeechBubble :=
  let b := { b with width := w, height := h }
  let b :=
    if b.useImageBubble = true ∧ b.sprite.isSome = true then
      match env.assets b.bubbleImagePath with
      | some (tx, ty) =>
        if 0 < tx ∧ 0 < ty then
          { b with sprite := some (w / (tx : ℚ), h / (ty : ℚ)) }
        else b
      | none => b
    else
      { b with shape := rebuildShape env.cosf env.sinf b.style w h 12 20 10 }
  b.wrapText env

/-- `SpeechBubble::setPosition` (SpeechBubble.cpp 455-465): move; the shape
and sprite positions and the text centering are rendering-only state. -/
def SpeechBubble.setPosition (x y : ℚ) (b : SpeechBubble) : SpeechBubble :=
  { b with x := x, y := y }

/-- `SpeechBubble::setText` (SpeechBubble.cpp 467-471). -/
def SpeechBubble.setText (env : Env) (t : String) (b : SpeechBubble) :
    SpeechBubble :=
  ({ b with text := t } : SpeechBubble).wrapText env

/-- `SpeechBubble::setFontSize` (SpeechBubble.cpp 478-483). -/
def SpeechBubble.setFontSize (env : Env) (size : Int) (b : SpeechBubble) :
    SpeechBubble :=
  ({ b with fontSize := size } : SpeechBubble).wrapText env

/-- `SpeechBubble::loadBubbleImage` (SpeechBubble.cpp 377-411). The happy
path installs the sprite (scaled to the bubble size when the texture size is
positive, default scale 1 otherwise); a missing texture falls back to the
procedural shape. The `catch` branch is unreachable in the model. -/
def SpeechBubble.loadBubbleImage (env : Env) (imagePath : String)
    (b : SpeechBubble) : SpeechBubble :=
  let b := { b with bubbleImagePath := imagePath }
  match env.assets imagePath with
  | none =>
    { b with useImageBubble := false,
             shape := rebuildShape env.cosf env.sinf b.style b.width b.height
               12 20 10 }
  | some (tx, ty) =>
    let scale : ℚ × ℚ :=
      if 0 < tx ∧ 0 < ty then (b.width / (tx : ℚ), b.height / (ty : ℚ))
      else (1, 1)
    { b with useImageBubble := true, sprite := some scale }

/-- `SpeechBubble::setStyle` (SpeechBubble.cpp 413-432): store the style,
query the asset collaborator under the key `"bubble_" + style`, and either
switch to image-backed rendering or rebuild the procedural polygon. -/
def SpeechBubble.setStyle (env : Env) (style : String) (b : SpeechBubble) :
    SpeechBubble :=
  let b := { b with style := style }
  let imagePath := "bubble_" ++ style
  match env.assets imagePath with
  | some _ => b.loadBubbleImage env imagePath
  | none =>
    { b with useImageBubble := false,
             shape := rebuildShape env.cosf env.sinf style b.width b.height
               12 20 10 }

/-- The `SpeechBubble` constructor (SpeechBubble.cpp 26-44): default style
"speech", font "actionman" at size 24, procedural shape, then an initial
wrap. -/
def SpeechBubble.create (env : Env) (text : String) (x y width height : ℚ) :
    SpeechBubble :=
  let b : SpeechBubble :=
    { x := x, y := y, width := width, height := height, text := text,
      fontSize := 24, fontName := "actionman", style := "speech",
      useImageBubble := false, bubbleImagePath := "", shape := [],
      sprite := none, displayed := text }
  let b := { b with
    shape := rebuildShape env.cosf env.sinf b.style width height 12 20 10 }
  b.wrapText env

/-! ## BrushStroke (BrushStroke.h / BrushStroke.cpp) -/

/-- State of a `BrushStroke` over an abstract colour type `γ` (`sf::Color`).
`vertices` models the `sf::VertexArray`: position and colour per vertex;
`x, y, width, height` are the inherited logical bounds. -/
structure BrushStroke (γ : Type) where
  vertices : List ((ℚ × ℚ) × γ)
  color : γ
  thickness : ℚ
  x : ℚ
  y : ℚ
  width : ℚ
  height : ℚ

/-- The `BrushStroke` constructor (BrushStroke.cpp 21-29):
`CanvasObject(id, 0, 0, 0, 0, 0)` and an empty vertex array. -/
def BrushStroke.create (color : γ) (thickness : ℚ) : BrushStroke γ :=
  { vertices := [], color := color, thickness := thickness,
    x := 0, y := 0, width := 0, height := 0 }

/-- `BrushStroke::updateBoundsForPoint` (BrushStroke.cpp 142-158): extend the
running min/max bounding box by one point. -/
def BrushStroke.updateBoundsForPoint (p : ℚ × ℚ) (s : BrushStroke γ) :
    BrushStroke γ :=
  let minX := min s.x p.1
  let minY := min s.y p.2
  let maxX := max (s.x + s.width) p.1
  let maxY := max (s.y + s.height) p.2
  { s with x := minX, y := minY, width := maxX - minX, height := maxY - minY }

/-- `BrushStroke::beginAt` (BrushStroke.cpp 31-49): reset to a single point
and collapse the bounds onto it. -/
def BrushStroke.beginAt (pos : ℚ × ℚ) (s : BrushStroke γ) : BrushStroke γ :=
  { s with vertices := [(pos, s.color)],
           x := pos.1, y := pos.2, width := 0, height := 0 }

/-- The interpolation loop of `BrushStroke::addPoint` (BrushStroke.cpp
87-96): append `k` points interpolated at parameters `t = (i+1)/steps`
between `lastPos` and `lastPos + (dx, dy)`, updating the bounds for each
(the loop runs with `k = steps.toNat`, mirroring `for i in 1..steps`). -/
def BrushStroke.interpLoop (lastPos : ℚ × ℚ) (dx dy : ℚ) (steps : Int)
    (k : ℕ) (s : BrushStroke γ) : BrushStroke γ :=
  (List.range k).foldl
    (fun (s' : BrushStroke γ) (i : ℕ) =>
      let t : ℚ := ((i : ℚ) + 1) / (steps : ℚ)
      let q : ℚ × ℚ := (lastPos.1 + t * dx, lastPos.2 + t * dy)
      BrushStroke.updateBoundsForPoint q
        { s' with vertices := s'.vertices ++ [(q, s'.color)] })
    s

/-- `BrushStroke::addPoint` (BrushStroke.cpp 51-97): append the point, or,
when it is farther than `max(thickness * 0.5, 0.5)` from the last vertex,
synthesize `ceil(dist / spacing)` interpolated points. `sqrtf` models
`std::sqrt`, applied to the squared distance. -/
def BrushStroke.addPoint (sqrtf : ℚ → ℚ) (pos : ℚ × ℚ) (s : BrushStroke γ) :
    BrushStroke γ :=
  match s.vertices.getLast? with
  | none =>
    BrushStroke.updateBoundsForPoint pos
      { s with vertices := s.vertices ++ [(pos, s.color)] }
  | some lastV =>
    let lastPos := lastV.1
    let dx := pos.1 - lastPos.1
    let dy := pos.2 - lastPos.2
    let dist := sqrtf (dx * dx + dy * dy)
    let spacing := max (s.thickness * 0.5) 0.5
    if dist ≤ spacing then
      BrushStroke.updateBoundsForPoint pos
        { s with vertices := s.vertices ++ [(pos, s.color)] }
    else
      let steps : Int := ⌈dist / spacing⌉
      BrushStroke.interpLoop lastPos dx dy steps steps.toNat s

/-- `BrushStroke::setColor` (BrushStroke.cpp 99-107): store the colour and
recolour every existing vertex. -/
def BrushStroke.setColor (c : γ) (s : BrushStroke γ) : BrushStroke γ :=
  { s with color := c, vertices := s.vertices.map fun v => (v.1, c) }

/-- Squared Euclidean distance between two points. -/
def sqDist (p q : ℚ × ℚ) : ℚ := (p.1 - q.1) ^ 2 + (p.2 - q.2) ^ 2

/-- Every two consecutive points of the list are at (squared) distance at
most `sp ^ 2`, i.e. at Euclidean distance at most `sp` for `0 ≤ sp`. -/
def Gapped (sp : ℚ) (l : List (ℚ × ℚ)) : Prop :=
  l.Chain' fun p q => sqDist p q ≤ sp ^ 2

/-! ## Command layer (Command.h / Command.cpp) -/

/-- A scene collection `std::vector<std::unique_ptr<T>>`: `none` is a null
`unique_ptr` (the state a `unique_ptr` is left in by `std::move`). -/
abbrev Collection (α : Type) := List (Option α)

/-- `AddCharacterCommand` state (Command.h 58-72): the owned payload (null
once moved into the scene) and the `isExecuted` flag. -/
structure AddCharacterCommand (α : Type) where
  character : Option α
  isExecuted : Bool

/-- `AddCharacterCommand::execute` (Command.cpp 23-26): unconditionally move
the payload to the back of the collection. -/
def AddCharacterCommand.execute (c : AddCharacterCommand α)
    (chars : Collection α) : AddCharacterCommand α × Collection α :=
  ({ character := none, isExecuted := true }, chars ++ [c.character])

/-- `AddCharacterCommand::undo` (Command.cpp 28-34): if executed and the
collection is non-empty, reclaim the last element. -/
def AddCharacterCommand.undo (c : AddCharacterCommand α)
    (chars : Collection α) : AddCharacterCommand α × Collection α :=
  if h : c.isExecuted = true ∧ 0 < chars.length then
    ({ character := chars.getLast (List.length_pos.mp h.2),
       isExecuted := false }, chars.dropLast)
  else (c, chars)

/-- `DeleteCharacterCommand` state (Command.h 116-129): target index, the
reclaimed element (null until executed) and the `isExecuted` flag. -/
structure DeleteCharacterCommand (α : Type) where
  index : Int
  character : Option α
  isExecuted : Bool

/-- `DeleteCharacterCommand::execute` (Command.cpp 91-97): bounds-checked
erase at `index`, taking ownership of the erased element. -/
def DeleteCharacterCommand.execute (c : DeleteCharacterCommand α)
    (chars : Collection α) : DeleteCharacterCommand α × Collection α :=
  if h : 0 ≤ c.index ∧ c.index < (chars.length : Int) then
    ({ c with character := chars.get ⟨c.index.toNat, by omega⟩,
              isExecuted := true }, chars.eraseIdx c.index.toNat)
  else (c, chars)

/-- `DeleteCharacterCommand::undo` (Command.cpp 99-104): if executed and the
held pointer is non-null, re-insert it at the original index. -/
def DeleteCharacterCommand.undo (c : DeleteCharacterCommand α)
    (chars : Collection α) : DeleteCharacterCommand α × Collection α :=
  if c.isExecuted = true ∧ c.character.isSome = true then
    ({ c with character := none, isExecuted := false },
     chars.insertIdx c.index.toNat c.character)
  else (c, chars)

/-- A command owned by the manager, with its mutable state. `AddBubble`,
`AddStroke` and `DeleteBubble` (Command.cpp 40-132) are verbatim isomorphic
to the two character commands and are represented by them. -/
inductive Cmd (α : Type) where
  | addChar : AddCharacterCommand α → Cmd α
  | delChar : DeleteCharacterCommand α → Cmd α

/-- Virtual `Command::execute` dispatch. -/
def Cmd.execute : Cmd α → Collection α → Cmd α × Collection α
  | .addChar c, chars =>
    let r := c.execute chars
    (.addChar r.1, r.2)
  | .delChar c, chars =>
    let r := c.execute chars
    (.delChar r.1, r.2)

/-- Virtual `Command::undo` dispatch. -/
def Cmd.undo : Cmd α → Collection α → Cmd α × Collection α
  | .addChar c, chars =>
    let r := c.undo chars
    (.addChar r.1, r.2)
  | .delChar c, chars =>
    let r := c.undo chars
    (.delChar r.1, r.2)

/-- `CommandManager::maxHistorySize` (Command.h 177). -/
def maxHistorySize : ℕ := 100

/-- The scene collection together with the `CommandManager` stacks that own
the commands mutating it (Command.h 173-188). The stacks hold the command
objects with their current state, newest at the back. -/
structure AppState (α : Type) where
  characters : Collection α
  undoStack : List (Cmd α)
  redoStack : List (Cmd α)

/-- `CommandManager::executeCommand` (Command.cpp 157-170): run the command,
push it on the undo stack, clear the redo stack, evict the oldest undo entry
when the depth exceeds 100. -/
def AppState.executeCommand (cmd : Cmd α) (w : AppState α) : AppState α :=
  let r := cmd.execute w.characters
  let u := w.undoStack ++ [r.1]
  { characters := r.2,
    undoStack := if maxHistorySize < u.length then u.drop 1 else u,
    redoStack := [] }

/-- `CommandManager::undo` (Command.cpp 180-188): pop the newest undo entry,
run its `undo`, push it on the redo stack; no-op if the stack is empty. -/
def AppState.undo (w : AppState α) : AppState α :=
  match w.undoStack.getLast? with
  | none => w
  | some cmd =>
    let r := cmd.undo w.characters
    { characters := r.2,
      undoStack := w.undoStack.dropLast,
      redoStack := w.redoStack ++ [r.1] }

/-- `CommandManager::redo` (Command.cpp 190-198): pop the newest redo entry,
run its `execute`, push it back on the undo stack; no-op if empty. -/
def AppState.redo (w : AppState α) : AppState α :=
  match w.redoStack.getLast? with
  | none => w
  | some cmd =>
    let r := cmd.execute w.characters
    { characters := r.2,
      undoStack := w.undoStack ++ [r.1],
      redoStack := w.redoStack.dropLast }

/-- The `CommandManager` history discipline in isolation (Command.cpp
157-211), with commands abstracted to identity tokens (a token stands for how
the C++ object identity of one `unique_ptr<Command>` moves between the two
stacks; the effect on the scene is modelled by `AppState`). -/
structure CommandManager where
  undoStack : List ℕ
  redoStack : List ℕ

/-- A fresh `CommandManager`. -/
def CommandManager.empty : CommandManager := ⟨[], []⟩

/-- `CommandManager::executeCommand` on tokens. -/
def CommandManager.executeCommand (c : ℕ) (m : CommandManager) :
    CommandManager :=
  let u := m.undoStack ++ [c]
  { undoStack := if maxHistorySize < u.length then u.drop 1 else u,
    redoStack := [] }

/-- `CommandManager::undo` on tokens. -/
def CommandManager.undo (m : CommandManager) : CommandManager :=
  match m.undoStack.getLast? with
  | none => m
  | some c =>
    { undoStack := m.undoStack.dropLast, redoStack := m.redoStack ++ [c] }

/-- `CommandManager::redo` on tokens. -/
def CommandManager.redo (m : CommandManager) : CommandManager :=
  match m.redoStack.getLast? with
  | none => m
  | some c =>
    { undoStack := m.undoStack ++ [c], redoStack := m.redoStack.dropLast }

/-- Execute a sequence of commands in order through the manager. -/
def CommandManager.runAll (l : List ℕ) (m : CommandManager) : CommandManager :=
  l.foldl (fun s c => s.executeCommand c) m

/-! ## Concrete collaborator instances used for evaluation -/

/-- A trivial trigonometric collaborator (returns 0 everywhere; satisfies the
bound `|value| ≤ 1` that the containment theorems assume). -/
def zeroFn : ℚ → ℚ := fun _ => 0

/-- A text measurer charging exactly 10 px per character, independent of the
font size (the C6 scenario of the specification). -/
def measureTen : Int → String → ℚ := fun _ s => 10 * s.length

/-- Environment for the C6 scenario: 10 px/char measurer, no image assets. -/
def envTen : Env := ⟨zeroFn, zeroFn, measureTen, fun _ => none⟩

/-- Environment whose asset store has a 2x2 texture under the key
"bubble_speech" and nothing else. -/
def envSpeechTex : Env :=
  ⟨zeroFn, zeroFn, measureTen,
   fun k => if k = "bubble_speech" then some (2, 2) else none⟩

/-- A square-root model satisfying `0 ≤ sqrtModel q` and `q ≤ sqrtModel q ^ 2`
on nonnegative inputs, used to instantiate the abstract `std::sqrt`. -/
def sqrtModel : ℚ → ℚ := fun q => max q 1

/-- A concrete 100x80 bubble state used to evaluate theorems with
hypotheses. -/
def bubbleW : SpeechBubble :=
  { x := 0, y := 0, width := 100, height := 80, text := "hi",
    fontSize := 24, fontName := "actionman", style := "speech",
    useImageBubble := false, bubbleImagePath := "", shape := [],
    sprite := none, displayed := "hi" }

/-! ## Theorems -/

/-- The square-root model satisfies the bounds the stroke theorems assume of
`std::sqrt`. -/
theorem sqrtModel_spec : ∀ q : ℚ, 0 ≤ q → 0 ≤ sqrtModel q ∧ q ≤ sqrtModel q ^ 2 := by
  intro q hq
  unfold sqrtModel
  constructor
  · exact le_trans hq (le_max_left q 1)
  · rcases le_or_lt q 1 with h | h
    · have h1 : (1 : ℚ) ≤ max q 1 := le_max_right q 1
      nlinarith
    · have h1 : max q 1 = q := max_eq_left (le_of_lt h)
      rw [h1]
      nlinarith

/-- C10: `BrushStroke::setColor` recolours every stored vertex while leaving
positions, the vertex count and the bounding box unchanged
(BrushStroke.cpp 99-107). -/
theorem setColor_recolors_all_points (γ : Type) (s : BrushStroke γ) (c : γ) :
    (s.setColor c).vertices.map Prod.fst = s.vertices.map Prod.fst ∧
    (∀ v ∈ (s.setColor c).vertices, v.2 = c) ∧
    (s.setColor c).vertices.length = s.vertices.length ∧
    (s.setColor c).x = s.x ∧ (s.setColor c).y = s.y ∧
    (s.setColor c).width = s.width ∧ (s.setColor c).height = s.height := by
  refine ⟨?_, ?_, ?_, rfl, rfl, rfl, rfl⟩
  · simp [BrushStroke.setColor]
  · intro v hv
    rcases List.mem_map.mp hv with ⟨u, hu, rfl⟩
    rfl
  · simp [BrushStroke.setColor]

/-- C4: executing a new command through the `CommandManager` empties the redo
log, so after `execute(A); undo(); execute(B);` nothing (in particular not A)
can be reached via redo, and no command sits in both logs
(Command.cpp 157-170). -/
theorem new_command_invalidates_redo (m : CommandManager) (A B : ℕ) :
    (((m.executeCommand A).undo).executeCommand B).redoStack = [] ∧
    A ∉ (((m.executeCommand A).undo).executeCommand B).redoStack ∧
    ∀ x ∈ (((m.executeCommand A).undo).executeCommand B).undoStack,
      x ∉ (((m.executeCommand A).undo).executeCommand B).redoStack := by
  refine ⟨rfl, ?_, ?_⟩ <;> simp [CommandManager.executeCommand]

/-- Auxiliary: `SpeechBubble::setSize` installs the new width, leaves text and
font size untouched, and ends with a wrap computed from those current
values. -/
theorem setSize_spec (env : Env) (w h : ℚ) (b : SpeechBubble) :
    (b.setSize env w h).width = w ∧ (b.setSize env w h).text = b.text ∧
    (b.setSize env w h).fontSize = b.fontSize ∧
    (b.setSize env w h).displayed =
      wrapAlg env.measure b.fontSize b.text (w * 0.80) := by
  unfold SpeechBubble.setSize SpeechBubble.wrapText
  dsimp only
  split
  · rcases env.assets b.bubbleImagePath with _ | ⟨tx, ty⟩
    · simp
    · dsimp only
      split <;> simp
  · simp

/-- C2: no setter returns with a stale wrap — after `setSize`, `setText` or
`setFontSize` returns, the displayed string is the current text re-wrapped to
0.8 times the current width at the current font size
(SpeechBubble.cpp 150-178, 467-483). -/
theorem setters_never_leave_stale_wrap (env : Env) (b : SpeechBubble)
    (w h : ℚ) (t : String) (fs : Int) :
    ((b.setSize env w h).width = w ∧ (b.setSize env w h).text = b.text ∧
      (b.setSize env w h).fontSize = b.fontSize ∧
      (b.setSize env w h).displayed =
        wrapAlg env.measure b.fontSize b.text (0.8 * w)) ∧
    ((b.setText env t).text = t ∧
      (b.setText env t).displayed =
        wrapAlg env.measure b.fontSize t (0.8 * b.width)) ∧
    ((b.setFontSize env fs).fontSize = fs ∧
      (b.setFontSize env fs).displayed =
        wrapAlg env.measure fs b.text (0.8 * b.width)) := by
  obtain ⟨hw, ht, hf, hd⟩ := setSize_spec env w h b
  have harg : ∀ u : ℚ, u * 0.80 = 0.8 * u := by intro u; norm_num [mul_comm]
  refine ⟨⟨hw, ht, hf, ?_⟩, ⟨?_, ?_⟩, ⟨?_, ?_⟩⟩
  · rw [hd, harg]
  · rfl
  · show (SpeechBubble.wrapText env _).displayed = _
    unfold SpeechBubble.wrapText
    rw [harg]
  · rfl
  · show (SpeechBubble.wrapText env _).displayed = _
    unfold SpeechBubble.wrapText
    rw [harg]

set_option maxRecDepth 4000

/-- C6: the word-wrap splits a single word wider than the maximum line width
character by character — a bubble created with text "abcdefghij", width 100
and a font measuring 10 px per character wraps into exactly the two lines
"abcdefgh" and "ij" (SpeechBubble.cpp 46-148, 95-118). -/
theorem wrap_splits_single_wide_word :
    (SpeechBubble.create envTen "abcdefghij" 0 0 100 80).displayed
      = "abcdefgh" ++ "\n" ++ "ij" ∧
    (SpeechBubble.create envTen "abcdefghij" 0 0 100 80).displayed.splitOn "\n"
      = ["abcdefgh", "ij"] := by
  constructor <;> with_unfolding_all rfl

/-- C9: `SpeechBubble::setStyle` queries the asset collaborator under exactly
the key `"bubble_" + style` and re-derives `useImageBubble` from the lookup
on every call: a hit switches to image-backed rendering and leaves the
procedural shape untouched, a miss clears the flag and rebuilds the polygon
for the new style (SpeechBubble.cpp 377-432). -/
theorem setStyle_rederives_image_backing (env : Env) (b : SpeechBubble)
    (s : String) :
    (b.setStyle env s).style = s ∧
    (b.setStyle env s).useImageBubble = (env.assets ("bubble_" ++ s)).isSome ∧
    ((env.assets ("bubble_" ++ s)).isSome = true →
      (b.setStyle env s).shape = b.shape ∧
      (b.setStyle env s).bubbleImagePath = "bubble_" ++ s) ∧
    (env.assets ("bubble_" ++ s) = none →
      (b.setStyle env s).useImageBubble = false ∧
      (b.setStyle env s).shape =
        rebuildShape env.cosf env.sinf s b.width b.height 12 20 10) := by
  unfold SpeechBubble.setStyle SpeechBubble.loadBubbleImage
  dsimp only
  rcases hA : env.assets ("bubble_" ++ s) with _ | ⟨tx, ty⟩ <;>
    simp [hA]

/-- Witness for C9: with a texture stored under "bubble_speech", setting the
style to "speech" flips to image-backed rendering without touching the
procedural shape. -/
theorem setStyle_rederives_image_backing_witness :
    (envSpeechTex.assets ("bubble_" ++ "speech")).isSome = true ∧
    ((bubbleW.setStyle envSpeechTex "speech").shape = bubbleW.shape ∧
      (bubbleW.setStyle envSpeechTex "speech").bubbleImagePath
        = "bubble_" ++ "speech") :=
  ⟨by decide,
   (setStyle_rederives_image_backing envSpeechTex bubbleW "speech").2.2.1
     (by decide)⟩

/-- Auxiliary: as long as the depth stays at most 100, `executeCommand` only
accumulates: running a command list appends it to the undo stack. -/
theorem runAll_accumulates (l : List ℕ) :
    ∀ m : CommandManager, m.undoStack.length + l.length ≤ 100 →
      (CommandManager.runAll l m).undoStack = m.undoStack ++ l := by
  induction l with
  | nil => intro m _; simp [CommandManager.runAll]
  | cons c t ih =>
    intro m hm
    have hstep : (m.executeCommand c).undoStack = m.undoStack ++ [c] := by
      unfold CommandManager.executeCommand
      dsimp only
      rw [if_neg]
      simp only [List.length_append, List.length_cons, List.length_nil,
        maxHistorySize] at hm ⊢
      omega
    have hlen : (m.executeCommand c).undoStack.length + t.length ≤ 100 := by
      rw [hstep]
      simp only [List.length_append, List.length_cons, List.length_nil] at hm ⊢
      omega
    calc (CommandManager.runAll (c :: t) m).undoStack
        = (CommandManager.runAll t (m.executeCommand c)).undoStack := rfl
      _ = (m.executeCommand c).undoStack ++ t := ih _ hlen
      _ = m.undoStack ++ (c :: t) := by rw [hstep]; simp

/-- C3: the undo log is bounded at depth 100 — executing 101 distinct
commands from a fresh manager leaves exactly 100 entries, the evicted entry
being the first command executed (Command.cpp 157-170). -/
theorem bounded_history_evicts_oldest (l : List ℕ) (hlen : l.length = 101)
    (hnd : l.Nodup) :
    (CommandManager.runAll l .empty).undoStack = l.tail ∧
    (CommandManager.runAll l .empty).undoStack.length = 100 ∧
    ∀ a, l.head? = some a → a ∉ (CommandManager.runAll l .empty).undoStack := by
  have hne : l ≠ [] := by intro h; rw [h] at hlen; simp at hlen
  have hsplit : l.dropLast ++ [l.getLast hne] = l :=
    List.dropLast_append_getLast hne
  have hdll : l.dropLast.length = 100 := by
    rw [List.length_dropLast, hlen]
  have hacc : (CommandManager.runAll l.dropLast .empty).undoStack
      = l.dropLast := by
    have := runAll_accumulates l.dropLast CommandManager.empty
      (by simp [CommandManager.empty, hdll])
    simpa [CommandManager.empty] using this
  have hrun : CommandManager.runAll l .empty
      = (CommandManager.runAll l.dropLast .empty).executeCommand
          (l.getLast hne) := by
    conv_lhs => rw [← hsplit]
    unfold CommandManager.runAll
    rw [List.foldl_append]
    rfl
  have hfinal : (CommandManager.runAll l .empty).undoStack = l.tail := by
    rw [hrun]
    unfold CommandManager.executeCommand
    dsimp only
    rw [hacc, hsplit, if_pos (by rw [hlen]; simp [maxHistorySize]),
      List.drop_one]
  refine ⟨hfinal, by rw [hfinal]; cases l with
    | nil => exact absurd rfl hne
    | cons a t => simp at hlen ⊢; omega, ?_⟩
  intro a ha
  rw [hfinal]
  cases l with
  | nil => exact absurd rfl hne
  | cons b t =>
    simp at ha
    subst ha
    simp only [List.tail_cons]
    exact (List.nodup_cons.mp hnd).1

/-- Witness for C3: the 101 commands `0, 1, ..., 100` leave the undo log with
exactly the 100 entries `1, ..., 100`, in order. -/
theorem bounded_history_evicts_oldest_witness :
    (List.range 101).length = 101 ∧ (List.range 101).Nodup ∧
    (CommandManager.runAll (List.range 101) .empty).undoStack
      = (List.range 101).tail ∧
    (CommandManager.runAll (List.range 101) .empty).undoStack.length = 100 :=
  ⟨by simp, (List.nodup_range 101),
   (bounded_history_evicts_oldest (List.range 101) (by simp)
     (List.nodup_range 101)).1,
   (bounded_history_evicts_oldest (List.range 101) (by simp)
     (List.nodup_range 101)).2.1⟩

/-- Auxiliary: the undo stack built by `executeCommand` (push, then evict the
oldest entry if the depth exceeds 100) always has the new command at the
back. -/
theorem pushEvict_getLast {β : Type} (u : List β) (c : β) :
    (if maxHistorySize < (u ++ [c]).length then (u ++ [c]).drop 1
      else u ++ [c]).getLast? = some c := by
  split
  case isTrue h =>
    have h1 : 1 ≤ u.length := by
      simp only [List.length_append, List.length_cons, List.length_nil,
        maxHistorySize] at h
      omega
    rw [List.drop_append_of_le_length h1]
    exact List.getLast?_concat _
  case isFalse h => exact List.getLast?_concat _

/-- Auxiliary: re-inserting the erased element at its original index restores
the original list. -/
theorem insertIdx_get_eraseIdx {β : Type} :
    ∀ (l : List β) (n : ℕ) (h : n < l.length),
      (l.eraseIdx n).insertIdx n l[n] = l := by
  intro l
  induction l with
  | nil => intro n h; simp at h
  | cons a t ih =>
    intro n h
    cases n with
    | zero => simp [List.insertIdx]
    | succ m =>
      simp only [List.eraseIdx_cons_succ, List.getElem_cons_succ,
        List.insertIdx_succ_cons, List.cons.injEq, true_and]
      exact ih m (by simpa using h)

/-- Auxiliary: the effect of `CommandManager::undo` when the undo stack has
command `c` at the back. -/
theorem AppState.undo_eq {α : Type} (w : AppState α) (c : Cmd α)
    (h : w.undoStack.getLast? = some c) :
    w.undo = ⟨(c.undo w.characters).2, w.undoStack.dropLast,
              w.redoStack ++ [(c.undo w.characters).1]⟩ := by
  unfold AppState.undo
  rw [h]

/-- Auxiliary: the effect of `CommandManager::redo` when the redo stack has
command `c` at the back. -/
theorem AppState.redo_eq {α : Type} (w : AppState α) (c : Cmd α)
    (h : w.redoStack.getLast? = some c) :
    w.redo = ⟨(c.execute w.characters).2, w.undoStack ++ [(c.execute w.characters).1],
              w.redoStack.dropLast⟩ := by
  unfold AppState.redo
  rw [h]

/-- C1: for every scene collection (of non-null entities) and every add or
delete command, `execute(cmd); undo();` through the `CommandManager` restores
the collection to exactly its previous length and element order — a delete at
a valid index re-inserts the same element at that index — and
`execute(cmd); undo(); redo();` restores the state right after the first
execute (Command.cpp 19-38, 88-108, 157-198). -/
theorem execute_undo_redo_roundtrip (α : Type) (chars : Collection α)
    (us rs : List (Cmd α)) (p : α) (idx : Int)
    (hfull : ∀ o ∈ chars, o.isSome = true) :
    ((AppState.executeCommand (.addChar ⟨some p, false⟩)
        ⟨chars, us, rs⟩).undo.characters = chars ∧
      (AppState.executeCommand (.addChar ⟨some p, false⟩)
        ⟨chars, us, rs⟩).undo.redo.characters
        = (AppState.executeCommand (.addChar ⟨some p, false⟩)
            ⟨chars, us, rs⟩).characters) ∧
    ((AppState.executeCommand (.delChar ⟨idx, none, false⟩)
        ⟨chars, us, rs⟩).undo.characters = chars ∧
      (AppState.executeCommand (.delChar ⟨idx, none, false⟩)
        ⟨chars, us, rs⟩).undo.redo.characters
        = (AppState.executeCommand (.delChar ⟨idx, none, false⟩)
            ⟨chars, us, rs⟩).characters) := by
  constructor
  · -- AddCharacterCommand round trip
    have hundo : Cmd.undo (Cmd.addChar ⟨none, true⟩) (chars ++ [some p])
        = (Cmd.addChar ⟨some p, false⟩, chars) := by
      simp [Cmd.undo, AddCharacterCommand.undo]
    have hexe : Cmd.execute (Cmd.addChar ⟨some p, false⟩) chars
        = (Cmd.addChar ⟨none, true⟩, chars ++ [some p]) := rfl
    constructor
    · simp only [AppState.executeCommand, hexe, AppState.undo,
        pushEvict_getLast, hundo]
    · simp only [AppState.executeCommand, hexe, AppState.undo,
        pushEvict_getLast, hundo]
      simp only [AppState.redo, List.nil_append, List.getLast?_singleton]
      simp [hexe]
  · -- DeleteCharacterCommand round trip
    by_cases hin : 0 ≤ idx ∧ idx < (chars.length : Int)
    · have hget : idx.toNat < chars.length := by omega
      have hexe : Cmd.execute (Cmd.delChar ⟨idx, none, false⟩) chars
          = (Cmd.delChar ⟨idx, chars[idx.toNat], true⟩,
             chars.eraseIdx idx.toNat) := by
        simp only [Cmd.execute, DeleteCharacterCommand.execute]
        rw [dif_pos hin]
        simp
      have hsome : (chars[idx.toNat]).isSome = true :=
        hfull _ (List.getElem_mem hget)
      have hundo : Cmd.undo (Cmd.delChar ⟨idx, chars[idx.toNat],
          true⟩) (chars.eraseIdx idx.toNat)
          = (Cmd.delChar ⟨idx, none, false⟩, chars) := by
        simp [Cmd.undo, DeleteCharacterCommand.undo, hsome,
          insertIdx_get_eraseIdx chars idx.toNat hget]
      constructor
      · simp only [AppState.executeCommand, hexe, AppState.undo,
          pushEvict_getLast, hundo]
      · simp only [AppState.executeCommand, hexe, AppState.undo,
          pushEvict_getLast, hundo]
        simp only [AppState.redo, List.nil_append, List.getLast?_singleton]
        simp [hexe]
    · have hexe : Cmd.execute (Cmd.delChar ⟨idx, none, false⟩) chars
          = (Cmd.delChar ⟨idx, none, false⟩, chars) := by
        simp only [Cmd.execute, DeleteCharacterCommand.execute]
        rw [dif_neg hin]
      have hundo : Cmd.undo (Cmd.delChar ⟨idx, none, false⟩) chars
          = (Cmd.delChar ⟨idx, none, false⟩, chars) := by
        simp [Cmd.undo, DeleteCharacterCommand.undo]
      constructor
      · simp only [AppState.executeCommand, hexe, AppState.undo,
          pushEvict_getLast, hundo]
      · simp only [AppState.executeCommand, hexe, AppState.undo,
          pushEvict_getLast, hundo]
        simp only [AppState.redo, List.nil_append, List.getLast?_singleton]
        simp [hexe]

/-- Witness for C1: deleting index 1 of a three-element collection and adding
an element both round-trip through execute/undo/redo on a concrete state. -/
theorem execute_undo_redo_roundtrip_witness :
    (∀ o ∈ ([some 1, some 2, some 3] : Collection ℕ), o.isSome = true) ∧
    ((AppState.executeCommand (.addChar ⟨some 9, false⟩)
        ⟨[some 1, some 2, some 3], [], []⟩).undo.characters
        = [some 1, some 2, some 3] ∧
      (AppState.executeCommand (.addChar ⟨some 9, false⟩)
        ⟨[some 1, some 2, some 3], [], []⟩).undo.redo.characters
        = (AppState.executeCommand (.addChar ⟨some 9, false⟩)
            ⟨[some 1, some 2, some 3], [], []⟩).characters) ∧
    ((AppState.executeCommand (.delChar ⟨1, none, false⟩)
        ⟨[some 1, some 2, some 3], [], []⟩).undo.characters
        = [some 1, some 2, some 3] ∧
      (AppState.executeCommand (.delChar ⟨1, none, false⟩)
        ⟨[some 1, some 2, some 3], [], []⟩).undo.redo.characters
        = (AppState.executeCommand (.delChar ⟨1, none, false⟩)
            ⟨[some 1, some 2, some 3], [], []⟩).characters) :=
  ⟨by decide,
   execute_undo_redo_roundtrip ℕ [some 1, some 2, some 3] [] [] 9 1
     (by decide)⟩

/-- Auxiliary: every point of a corner arc lies in the axis-aligned square of
half-side `radius` around the arc centre, provided the trigonometric
collaborators are bounded by 1 in absolute value. -/
theorem arc_point_bounds (cosf sinf : ℚ → ℚ) (radius : ℚ) (c : ℚ × ℚ)
    (startAng : ℚ) (hr : 0 ≤ radius)
    (Hcos : ∀ θ : ℚ, -1 ≤ cosf θ ∧ cosf θ ≤ 1)
    (Hsin : ∀ θ : ℚ, -1 ≤ sinf θ ∧ sinf θ ≤ 1) :
    ∀ p ∈ putArc cosf sinf radius c startAng,
      c.1 - radius ≤ p.1 ∧ p.1 ≤ c.1 + radius ∧
      c.2 - radius ≤ p.2 ∧ p.2 ≤ c.2 + radius := by
  intro p hp
  simp only [putArc, List.mem_map, List.mem_range] at hp
  obtain ⟨i, _, rfl⟩ := hp
  obtain ⟨hc1, hc2⟩ := Hcos (startAng + (i : ℚ) / 5 * (piF / 2))
  obtain ⟨hs1, hs2⟩ := Hsin (startAng + (i : ℚ) / 5 * (piF / 2))
  refine ⟨by nlinarith, by nlinarith, by nlinarith, by nlinarith⟩

/-- Counterexample for C8: at `w = h = 0` (default decoration parameters
`radius = 12`, `tailLen = 20`, `tailWidth = 10`), the round speech polygon
has a tail vertex at `(35, -2)`, far outside the claimed containment box
`[-tailLength, w] x [-cornerRadius, h + tailLength] = [-20, 0] x [-12, 20]`. -/
theorem speech_polygon_containment_cex :
    ¬ ∀ p ∈ rebuildSpeechRound zeroFn zeroFn 0 0 12 20 10,
        -(20 : ℚ) ≤ p.1 ∧ p.1 ≤ 0 ∧ -(12 : ℚ) ≤ p.2 ∧ p.2 ≤ 0 + 20 := by
  intro hcl
  have hm : ((35 : ℚ), (-2 : ℚ)) ∈ rebuildSpeechRound zeroFn zeroFn 0 0 12 20 10 := by
    with_unfolding_all decide
  have := (hcl _ hm).2.1
  norm_num at this

/-- C8 (amended): the round speech polygon always has `4 * 6 + 3 = 27`
vertices; the containment of every vertex in
`[-tailLength, w] x [-cornerRadius, h + tailLength]` holds provided the
bubble is large enough for its decoration: `radius, tailLen, tailWidth ≥ 0`,
`2 * radius ≤ w`, `2 * radius ≤ h`, `2 ≤ h`,
`radius + 18 + tailWidth * 0.5 ≤ w` and
`tailWidth ≤ 2 * (radius + 18 + tailLen)` (the tail is anchored at the fixed
x-offset `radius + 18` and dips `2` below the bottom edge, so degenerate
sizes push tail vertices outside the box). -/
theorem speech_polygon_count_and_containment (cosf sinf : ℚ → ℚ)
    (w h radius tailLen tailWidth : ℚ)
    (Hcos : ∀ θ : ℚ, -1 ≤ cosf θ ∧ cosf θ ≤ 1)
    (Hsin : ∀ θ : ℚ, -1 ≤ sinf θ ∧ sinf θ ≤ 1)
    (hr : 0 ≤ radius) (htl : 0 ≤ tailLen) (htw : 0 ≤ tailWidth)
    (hw : 2 * radius ≤ w) (hh : 2 * radius ≤ h) (hh2 : 2 ≤ h)
    (hwt : radius + 18 + tailWidth * 0.5 ≤ w)
    (htw2 : tailWidth ≤ 2 * (radius + 18 + tailLen)) :
    (rebuildSpeechRound cosf sinf w h radius tailLen tailWidth).length
      = 4 * 6 + 3 ∧
    ∀ p ∈ rebuildSpeechRound cosf sinf w h radius tailLen tailWidth,
      -tailLen ≤ p.1 ∧ p.1 ≤ w ∧ -radius ≤ p.2 ∧ p.2 ≤ h + tailLen := by
  constructor
  · rfl
  intro p hp
  have h05 : (0.5 : ℚ) = 1 / 2 := by norm_num
  have h020 : (0.20 : ℚ) = 1 / 5 := by norm_num
  simp only [rebuildSpeechRound, List.mem_append, List.mem_cons,
    List.mem_singleton, List.not_mem_nil, or_false] at hp
  rcases hp with ((((h1 | h2) | h3) | ht) | h4)
  · obtain ⟨b1, b2, b3, b4⟩ :=
      arc_point_bounds cosf sinf radius (radius, radius) piF hr Hcos Hsin p h1
    dsimp only at b1 b2 b3 b4
    exact ⟨by linarith, by linarith, by linarith, by linarith⟩
  · obtain ⟨b1, b2, b3, b4⟩ :=
      arc_point_bounds cosf sinf radius (w - radius, radius) (-(piF / 2))
        hr Hcos Hsin p h2
    dsimp only at b1 b2 b3 b4
    exact ⟨by linarith, by linarith, by linarith, by linarith⟩
  · obtain ⟨b1, b2, b3, b4⟩ :=
      arc_point_bounds cosf sinf radius (w - radius, h - radius) 0
        hr Hcos Hsin p h3
    dsimp only at b1 b2 b3 b4
    exact ⟨by linarith, by linarith, by linarith, by linarith⟩
  · rcases ht with hteq | hteq | hteq <;> rw [hteq] <;>
      refine ⟨?_, ?_, ?_, ?_⟩ <;> dsimp only <;> rw [h05, h020] at * <;>
      linarith
  · obtain ⟨b1, b2, b3, b4⟩ :=
      arc_point_bounds cosf sinf radius (radius, h - radius) (piF / 2)
        hr Hcos Hsin p h4
    dsimp only at b1 b2 b3 b4
    exact ⟨by linarith, by linarith, by linarith, by linarith⟩

/-- Witness for C8: at `w = h = 100` with the default decoration and the
bounded trigonometric collaborator `zeroFn`, the polygon has 27 vertices and
all vertices lie in `[-20, 100] x [-12, 120]`. -/
theorem speech_polygon_count_and_containment_witness :
    (rebuildSpeechRound zeroFn zeroFn 100 100 12 20 10).length = 4 * 6 + 3 ∧
    ∀ p ∈ rebuildSpeechRound zeroFn zeroFn 100 100 12 20 10,
      -(20 : ℚ) ≤ p.1 ∧ p.1 ≤ 100 ∧ -(12 : ℚ) ≤ p.2 ∧ p.2 ≤ 100 + 20 :=
  speech_polygon_count_and_containment zeroFn zeroFn 100 100 12 20 10
    (fun θ => by norm_num [zeroFn]) (fun θ => by norm_num [zeroFn])
    (by norm_num) (by norm_num) (by norm_num) (by norm_num) (by norm_num)
    (by norm_num) (by norm_num) (by norm_num)

/-- Counterexample for C7: the geometry builders do not clamp degenerate
sizes — the polygon built at `w = h = 0` differs from the polygon built at
every clamped size `w2, h2 ≥ 1` (there is no minimum-size substitute). -/
theorem geometry_no_internal_clamping_cex :
    ¬ ∀ w h : ℚ, w ≤ 0 ∨ h ≤ 0 →
        ∃ w2 h2 : ℚ, 1 ≤ w2 ∧ 1 ≤ h2 ∧
          rebuildSpeechRound zeroFn zeroFn w h 12 20 10
            = rebuildSpeechRound zeroFn zeroFn w2 h2 12 20 10 := by
  intro hcl
  obtain ⟨w2, h2, hw2, _, heq⟩ := hcl 0 0 (Or.inl le_rfl)
  have h6 : (rebuildSpeechRound zeroFn zeroFn 0 0 12 20 10)[6]?
      = (rebuildSpeechRound zeroFn zeroFn w2 h2 12 20 10)[6]? := by rw [heq]
  have hL : (rebuildSpeechRound zeroFn zeroFn 0 0 12 20 10)[6]?
      = some ((-12 : ℚ), (12 : ℚ)) := by with_unfolding_all rfl
  have hR : (rebuildSpeechRound zeroFn zeroFn w2 h2 12 20 10)[6]?
      = some (w2 - 12 + 12 * 0, 12 + 12 * 0) := rfl
  rw [hL, hR] at h6
  have hfst := congrArg (fun o => (o.getD (0, 0)).1) h6
  simp only [Option.getD_some] at hfst
  have : w2 = 0 := by linarith [hfst]
  linarith

/-- C7 (amended): every polygon builder is total — for all inputs, including
`w ≤ 0` or `h ≤ 0`, it produces the style's full fixed-size vertex list
(27 / 7 / 80 / 32 points, all with finite rational coordinates) — but no
internal clamping of `w` and `h` occurs: the round speech polygon determines
`w` and `h` exactly, so degenerate inputs yield correspondingly degenerate
geometry (minimum sizes are enforced by the resize UI in main.cpp, not by the
geometry kernel). -/
theorem builders_total_no_clamping :
    (∀ (cosf sinf : ℚ → ℚ) (w h radius tailLen tailWidth : ℚ),
      (rebuildSpeechRound cosf sinf w h radius tailLen tailWidth).length = 27 ∧
      (rebuildSpeechBox w h radius tailLen tailWidth).length = 7 ∧
      (rebuildThought cosf sinf w h).length = 80 ∧
      (rebuildShout cosf sinf w h).length = 32) ∧
    (∀ (cosf sinf : ℚ → ℚ) (radius tailLen tailWidth w h w2 h2 : ℚ),
      rebuildSpeechRound cosf sinf w h radius tailLen tailWidth
        = rebuildSpeechRound cosf sinf w2 h2 radius tailLen tailWidth →
      w = w2 ∧ h = h2) := by
  constructor
  · intro cosf sinf w h radius tailLen tailWidth
    exact ⟨rfl, rfl, rfl, rfl⟩
  · intro cosf sinf radius tailLen tailWidth w h w2 h2 heq
    have h6 := congrArg (fun l => l[6]?) heq
    have h12 := congrArg (fun l => l[12]?) heq
    have e6 : (some (w - radius
          + radius * cosf (-(piF / 2) + ((0 : ℕ) : ℚ) / 5 * (piF / 2)),
        radius + radius * sinf (-(piF / 2) + ((0 : ℕ) : ℚ) / 5 * (piF / 2)))
        : Option (ℚ × ℚ))
        = some (w2 - radius
            + radius * cosf (-(piF / 2) + ((0 : ℕ) : ℚ) / 5 * (piF / 2)),
          radius + radius * sinf (-(piF / 2) + ((0 : ℕ) : ℚ) / 5 * (piF / 2)))
        := h6
    have e12 : (some (w - radius
          + radius * cosf (0 + ((0 : ℕ) : ℚ) / 5 * (piF / 2)),
        h - radius + radius * sinf (0 + ((0 : ℕ) : ℚ) / 5 * (piF / 2)))
        : Option (ℚ × ℚ))
        = some (w2 - radius
            + radius * cosf (0 + ((0 : ℕ) : ℚ) / 5 * (piF / 2)),
          h2 - radius + radius * sinf (0 + ((0 : ℕ) : ℚ) / 5 * (piF / 2)))
        := h12
    have hw := congrArg (fun o => (o.getD (0, 0)).1) e6
    have hh := congrArg (fun o => (o.getD (0, 0)).2) e12
    simp only [Option.getD_some] at hw hh
    constructor <;> linarith

/-- Witness for C7: at the concrete size 5 x 6 the builders return their full
vertex lists, and the injectivity conjunct applied at equal inputs returns
the equalities it promises. -/
theorem builders_total_no_clamping_witness :
    (rebuildSpeechRound zeroFn zeroFn 5 6 12 20 10).length = 27 ∧
    ((5 : ℚ) = 5 ∧ (6 : ℚ) = 6) :=
  ⟨(builders_total_no_clamping.1 zeroFn zeroFn 5 6 12 20 10).1,
   builders_total_no_clamping.2 zeroFn zeroFn 12 20 10 5 6 5 6 rfl⟩

/-- Auxiliary: the interpolation loop appends exactly its `k` interpolated
points (with the stroke's colour) and changes no other tracked field but the
bounds. -/
theorem interpLoop_spec (γ : Type) (lastPos : ℚ × ℚ) (dx dy : ℚ)
    (steps : Int) :
    ∀ (k : ℕ) (s : BrushStroke γ),
      (BrushStroke.interpLoop lastPos dx dy steps k s).vertices
        = s.vertices ++ (List.range k).map (fun (i : ℕ) =>
            ((lastPos.1 + ((i : ℚ) + 1) / (steps : ℚ) * dx,
              lastPos.2 + ((i : ℚ) + 1) / (steps : ℚ) * dy), s.color)) ∧
      (BrushStroke.interpLoop lastPos dx dy steps k s).color = s.color ∧
      (BrushStroke.interpLoop lastPos dx dy steps k s).thickness
        = s.thickness := by
  intro k
  induction k with
  | zero => intro s; simp [BrushStroke.interpLoop]
  | succ n ih =>
    intro s
    obtain ⟨hv, hc, ht⟩ := ih s
    have hstep : BrushStroke.interpLoop lastPos dx dy steps (n + 1) s
        = BrushStroke.updateBoundsForPoint
            (lastPos.1 + ((n : ℚ) + 1) / (steps : ℚ) * dx,
             lastPos.2 + ((n : ℚ) + 1) / (steps : ℚ) * dy)
            { BrushStroke.interpLoop lastPos dx dy steps n s with
              vertices := (BrushStroke.interpLoop lastPos dx dy steps n
                  s).vertices
                ++ [((lastPos.1 + ((n : ℚ) + 1) / (steps : ℚ) * dx,
                      lastPos.2 + ((n : ℚ) + 1) / (steps : ℚ) * dy),
                    (BrushStroke.interpLoop lastPos dx dy steps n s).color)] }
        := by
      unfold BrushStroke.interpLoop
      rw [List.range_succ, List.foldl_append]
      rfl
    rw [hstep]
    refine ⟨?_, ?_, ?_⟩ <;>
      simp [BrushStroke.updateBoundsForPoint, hv, hc, ht, List.range_succ]

/-- Auxiliary: clearing denominators in the per-gap bound — if the total
squared displacement is at most `(S * sp) ^ 2`, one `1/S`-th of it is at most
`sp ^ 2`. -/
theorem interp_pair_bound (dx dy sp S : ℚ) (hS : 1 ≤ S)
    (hb : dx ^ 2 + dy ^ 2 ≤ (S * sp) ^ 2) :
    (1 / S * dx) ^ 2 + (1 / S * dy) ^ 2 ≤ sp ^ 2 := by
  have hS0 : (0 : ℚ) < S := lt_of_lt_of_le one_pos hS
  have h2 : (1 / S * dx) ^ 2 + (1 / S * dy) ^ 2
      = (dx ^ 2 + dy ^ 2) / S ^ 2 := by
    field_simp
    try ring
  rw [h2, div_le_iff₀ (by positivity)]
  nlinarith

/-- Auxiliary: the chain of interpolated points itself satisfies the gap
bound: consecutive parameters differ by `1/S`. -/
theorem chain'_interp_points (Lx Ly dx dy S sp : ℚ) (hS1 : 1 ≤ S)
    (hb : dx ^ 2 + dy ^ 2 ≤ (S * sp) ^ 2) (n : ℕ) :
    List.Chain' (fun p q => sqDist p q ≤ sp ^ 2)
      ((List.range n).map (fun (i : ℕ) =>
        ((Lx + ((i : ℚ) + 1) / S * dx, Ly + ((i : ℚ) + 1) / S * dy)
          : ℚ × ℚ))) := by
  have hSne : S ≠ 0 := by
    intro h0
    rw [h0] at hS1
    norm_num at hS1
  rw [List.chain'_map]
  cases n with
  | zero => simp
  | succ m =>
    refine (List.chain'_range_succ _ m).mpr ?_
    intro j _
    have hgap : sqDist
        (Lx + ((j : ℚ) + 1) / S * dx, Ly + ((j : ℚ) + 1) / S * dy)
        (Lx + ((j.succ : ℚ) + 1) / S * dx, Ly + ((j.succ : ℚ) + 1) / S * dy)
        = (1 / S * dx) ^ 2 + (1 / S * dy) ^ 2 := by
      simp only [sqDist]
      push_cast
      field_simp
      ring
    exact hgap.trans_le (interp_pair_bound dx dy sp S hS1 hb)

/-- Auxiliary: the gap from the base point to the first interpolated point
also satisfies the bound. -/
theorem head_interp_gap (Lx Ly dx dy S sp : ℚ) (hS1 : 1 ≤ S)
    (hb : dx ^ 2 + dy ^ 2 ≤ (S * sp) ^ 2) :
    sqDist (Lx, Ly)
      (Lx + ((0 : ℚ) + 1) / S * dx, Ly + ((0 : ℚ) + 1) / S * dy)
      ≤ sp ^ 2 := by
  have hSne : S ≠ 0 := by
    intro h0
    rw [h0] at hS1
    norm_num at hS1
  have hgap : sqDist (Lx, Ly)
      (Lx + ((0 : ℚ) + 1) / S * dx, Ly + ((0 : ℚ) + 1) / S * dy)
      = (1 / S * dx) ^ 2 + (1 / S * dy) ^ 2 := by
    simp only [sqDist]
    field_simp
    try ring
  exact hgap.trans_le (interp_pair_bound dx dy sp S hS1 hb)

/-- Auxiliary: `BrushStroke::addPoint` keeps every consecutive pair of stored
points within the spacing `max(thickness * 0.5, 0.5)` (squared-distance
form), and leaves the thickness unchanged. -/
theorem addPoint_preserves_gapped (γ : Type) (sqrtf : ℚ → ℚ)
    (Hsqrt : ∀ q : ℚ, 0 ≤ q → 0 ≤ sqrtf q ∧ q ≤ sqrtf q ^ 2)
    (s : BrushStroke γ) (pos : ℚ × ℚ)
    (hg : Gapped (max (s.thickness * 0.5) 0.5) (s.vertices.map Prod.fst)) :
    Gapped (max (s.thickness * 0.5) 0.5)
      ((s.addPoint sqrtf pos).vertices.map Prod.fst) ∧
    (s.addPoint sqrtf pos).thickness = s.thickness := by
  have hsp : (0 : ℚ) < max (s.thickness * 0.5) 0.5 :=
    lt_of_lt_of_le (by norm_num) (le_max_right _ _)
  rcases hlast : s.vertices.getLast? with _ | lastV
  · have hnil : s.vertices = [] := by
      cases hv : s.vertices with
      | nil => rfl
      | cons a t => rw [hv] at hlast; simp [List.getLast?_concat] at hlast
    unfold BrushStroke.addPoint
    simp only [hlast]
    constructor
    · simp [BrushStroke.updateBoundsForPoint, hnil, Gapped]
    · simp [BrushStroke.updateBoundsForPoint]
  · have hd2 : (0 : ℚ) ≤ (pos.1 - lastV.1.1) * (pos.1 - lastV.1.1)
        + (pos.2 - lastV.1.2) * (pos.2 - lastV.1.2) := by
      nlinarith [sq_nonneg (pos.1 - lastV.1.1), sq_nonneg (pos.2 - lastV.1.2)]
    obtain ⟨hs0, hs2⟩ := Hsqrt _ hd2
    have hvlast : (s.vertices.map Prod.fst).getLast? = some lastV.1 := by
      rw [List.getLast?_map, hlast]
      rfl
    by_cases hdist : sqrtf ((pos.1 - lastV.1.1) * (pos.1 - lastV.1.1)
        + (pos.2 - lastV.1.2) * (pos.2 - lastV.1.2))
        ≤ max (s.thickness * 0.5) 0.5
    · -- direct append: the raw point is within the spacing
      have hlink : sqDist lastV.1 pos ≤ (max (s.thickness * 0.5) 0.5) ^ 2
          := by
        have heq : sqDist lastV.1 pos
            = (pos.1 - lastV.1.1) * (pos.1 - lastV.1.1)
              + (pos.2 - lastV.1.2) * (pos.2 - lastV.1.2) := by
          simp only [sqDist]
          ring
        rw [heq]
        nlinarith
      unfold BrushStroke.addPoint
      simp only [hlast]
      rw [if_pos hdist]
      constructor
      · simp only [BrushStroke.updateBoundsForPoint]
        rw [List.map_append]
        refine List.chain'_append.mpr ⟨hg, by simp, ?_⟩
        intro x hx y hy
        rw [hvlast] at hx
        simp at hx hy
        rw [← hx, ← hy]
        exact hlink
      · simp [BrushStroke.updateBoundsForPoint]
    · -- interpolation: ceil(dist/spacing) synthesized points
      unfold BrushStroke.addPoint
      simp only [hlast]
      rw [if_neg hdist]
      rw [not_le] at hdist
      obtain ⟨hv, _, ht⟩ := interpLoop_spec γ lastV.1 (pos.1 - lastV.1.1)
        (pos.2 - lastV.1.2)
        ⌈sqrtf ((pos.1 - lastV.1.1) * (pos.1 - lastV.1.1)
          + (pos.2 - lastV.1.2) * (pos.2 - lastV.1.2))
          / max (s.thickness * 0.5) 0.5⌉
        (⌈sqrtf ((pos.1 - lastV.1.1) * (pos.1 - lastV.1.1)
          + (pos.2 - lastV.1.2) * (pos.2 - lastV.1.2))
          / max (s.thickness * 0.5) 0.5⌉).toNat s
      refine ⟨?_, ht⟩
      rw [hv]
      set sp := max (s.thickness * 0.5) 0.5 with hspdef
      set dx := pos.1 - lastV.1.1 with hdx
      set dy := pos.2 - lastV.1.2 with hdy
      set stZ : Int := ⌈sqrtf (dx * dx + dy * dy) / sp⌉ with hstZ
      set S : ℚ := ((stZ : Int) : ℚ) with hSdef
      have hceil : sqrtf (dx * dx + dy * dy) / sp ≤ S := by
        rw [hSdef, hstZ]
        exact_mod_cast Int.le_ceil _
      have hS1 : (1 : ℚ) ≤ S := by
        have hgt : (1 : ℚ) < sqrtf (dx * dx + dy * dy) / sp :=
          (one_lt_div hsp).mpr hdist
        linarith
      have hbound : dx ^ 2 + dy ^ 2 ≤ (S * sp) ^ 2 := by
        have h1 : sqrtf (dx * dx + dy * dy) ≤ S * sp := by
          rw [div_le_iff₀ hsp] at hceil
          linarith
        nlinarith
      rw [List.map_append, List.map_map]
      have hcomp : (Prod.fst ∘ fun (i : ℕ) =>
          ((lastV.1.1 + ((i : ℚ) + 1) / S * dx,
            lastV.1.2 + ((i : ℚ) + 1) / S * dy), s.color))
          = fun (i : ℕ) =>
            ((lastV.1.1 + ((i : ℚ) + 1) / S * dx,
              lastV.1.2 + ((i : ℚ) + 1) / S * dy) : ℚ × ℚ) := rfl
      rw [hcomp]
      refine List.chain'_append.mpr
        ⟨hg, chain'_interp_points lastV.1.1 lastV.1.2 dx dy S sp hS1 hbound
          stZ.toNat, ?_⟩
      intro x hx y hy
      rw [hvlast] at hx
      simp only [Option.mem_def, Option.some.injEq] at hx
      subst hx
      cases hn : stZ.toNat with
      | zero => rw [hn] at hy; simp at hy
      | succ m =>
        rw [hn, List.range_succ_eq_map] at hy
        simp only [List.map_cons, List.head?_cons, Option.mem_def,
          Option.some.injEq] at hy
        subst hy
        have hh := head_interp_gap lastV.1.1 lastV.1.2 dx dy S sp hS1 hbound
        rw [Prod.mk.eta] at hh
        simpa using hh

/-- C5: after `beginAt` and any sequence of `addPoint` calls, every two
consecutive stored points of the stroke are at (squared Euclidean) distance
at most `max(thickness * 0.5, 0.5)` squared — raw points farther away than
the spacing are replaced by interpolated chains whose gaps respect it
(BrushStroke.cpp 31-97). The hypothesis characterizes `std::sqrt`:
nonnegative values whose square dominates the argument. -/
theorem stroke_gaps_bounded (γ : Type) (sqrtf : ℚ → ℚ)
    (Hsqrt : ∀ q : ℚ, 0 ≤ q → 0 ≤ sqrtf q ∧ q ≤ sqrtf q ^ 2)
    (s : BrushStroke γ) (start : ℚ × ℚ) (pts : List (ℚ × ℚ)) :
    Gapped (max (s.thickness * 0.5) 0.5)
      ((pts.foldl (fun cur p => cur.addPoint sqrtf p)
        (s.beginAt start)).vertices.map Prod.fst) := by
  have key : ∀ (l : List (ℚ × ℚ)) (cur : BrushStroke γ),
      cur.thickness = s.thickness →
      Gapped (max (s.thickness * 0.5) 0.5) (cur.vertices.map Prod.fst) →
      Gapped (max (s.thickness * 0.5) 0.5)
        ((l.foldl (fun c2 p => c2.addPoint sqrtf p) cur).vertices.map
          Prod.fst) := by
    intro l
    induction l with
    | nil => intro cur _ hgap; simpa using hgap
    | cons p t ih =>
      intro cur hth hgap
      have hx := addPoint_preserves_gapped γ sqrtf Hsqrt cur p
        (by rw [hth]; exact hgap)
      rw [hth] at hx
      exact ih (cur.addPoint sqrtf p) hx.2 hx.1
  refine key pts (s.beginAt start) rfl ?_
  simp [BrushStroke.beginAt, Gapped]

/-- Witness for C5: a stroke of thickness 2 begun at the origin, fed the
single distant raw point `(3, 0)`, satisfies the gap bound with the concrete
square-root model. -/
theorem stroke_gaps_bounded_witness :
    (∀ q : ℚ, 0 ≤ q → 0 ≤ sqrtModel q ∧ q ≤ sqrtModel q ^ 2) ∧
    Gapped (max (((BrushStroke.create 0 2 : BrushStroke ℕ)).thickness * 0.5)
      0.5)
      ((([((3 : ℚ), (0 : ℚ))]).foldl
        (fun cur p => cur.addPoint sqrtModel p)
        ((BrushStroke.create 0 2 : BrushStroke ℕ).beginAt
          (0, 0))).vertices.map Prod.fst) :=
  ⟨sqrtModel_spec,
   stroke_gaps_bounded ℕ sqrtModel sqrtModel_spec
     (BrushStroke.create 0 2) (0, 0) [(3, 0)]⟩

end Comic
